import Mathlib

set_option maxHeartbeats 1000000

namespace appbase

/-- Named priority tiers of the execution priority queue (struct priority);
the priority domain itself is the full integer range. -/
def priority.high : Int := 100

def priority.medium : Int := 50

def priority.low : Int := 10

/-- Behaviour of a queued handler's stored function when invoked: it can
return normally, throw, or push further handlers onto the queue (via add)
before continuing. -/
inductive Act where
  | ret : Act
  | raise : Act
  | enq (prio : Int) (tid : Nat) (a : Act) (k : Act) : Act
deriving DecidableEq

/-- A queued handler (queued_handler_base): its priority and the behaviour of
the stored function; tid identifies the function object. -/
structure Task where
  prio : Int
  tid : Nat
  act : Act
deriving DecidableEq

/-- A function object as passed to add / dispatch / post / defer. -/
structure Fn where
  tid : Nat
  act : Act
deriving DecidableEq

/-- Determinization of std::priority_queue::top plus the queue without that
element: select the first handler of maximal priority (operator< on
queued_handler_base compares priorities only, so among equal priorities the
choice is the container's own; we fix the first one). Returns none on an
empty queue. -/
def popMax : List Task → Option (Task × List Task)
  | [] => none
  | t :: rest =>
    match popMax rest with
    | none => some (t, [])
    | some (u, r) => if t.prio < u.prio then some (u, t :: r) else some (t, rest)

/-- std::priority_queue::pop on the model: drop the selected top element. -/
def qpop (q : List Task) : List Task :=
  match popMax q with
  | none => []
  | some (_, r) => r

/-- execution_priority_queue::add(priority, function): wrap the function in a
queued_handler carrying the priority and push it onto the queue. -/
def add (priority : Int) (function : Fn) (q : List Task) : List Task :=
  q ++ [{ prio := priority, tid := function.tid, act := function.act }]

/-- A sequence of add calls, in order. -/
def add_all (rs : List (Int × Fn)) (q : List Task) : List Task :=
  rs.foldl (fun acc r => add r.1 r.2 acc) q

/-- queued_handler::execute: run the stored function against the current
queue state; the function may push new handlers and may throw. Returns the
updated queue and whether the call threw. -/
def runAct : Act → List Task → List Task × Bool
  | Act.ret, q => (q, false)
  | Act.raise, q => (q, true)
  | Act.enq p i a k, q => runAct k (q ++ [{ prio := p, tid := i, act := a }])

/-- Observable outcome of one drain call: the remaining queue, the handlers
executed in order, and whether an exception escaped the drain. -/
structure DrainOut where
  queue : List Task
  trace : List Task
  raised : Bool
deriving DecidableEq

/-- execution_priority_queue::execute_all:
while (!handlers_.empty()) { handlers_.top()->execute(); handlers_.pop(); }
Note execution happens before the pop, and the pop removes the top of the
queue as left by the executed function; an exception escapes before the pop.
The fuel argument only bounds the number of loop iterations (the source loop
can run forever if handlers keep adding work); none means fuel ran out. -/
def execute_all : Nat → List Task → Option DrainOut
  | 0, _ => none
  | fuel + 1, q =>
    match popMax q with
    | none => some ⟨[], [], false⟩
    | some (t, _) =>
      let s := runAct t.act q
      if s.2 then some ⟨s.1, [t], true⟩
      else
        match execute_all fuel (qpop s.1) with
        | none => none
        | some out => some ⟨out.queue, t :: out.trace, out.raised⟩

/-- execution_priority_queue::execute_highest: execute the top handler and
pop; once a handler with priority below priority::high has been executed,
break; finally return !handlers_.empty(). The returned Bool is none when an
exception escaped (the source then returns nothing). -/
def execute_highest : Nat → List Task → Option (DrainOut × Option Bool)
  | 0, _ => none
  | fuel + 1, q =>
    match popMax q with
    | none => some (⟨q, [], false⟩, some (!q.isEmpty))
    | some (t, _) =>
      let s := runAct t.act q
      if s.2 then some (⟨s.1, [t], true⟩, none)
      else
        let q2 := qpop s.1
        if t.prio < priority.high then some (⟨q2, [t], false⟩, some (!q2.isEmpty))
        else
          match execute_highest fuel q2 with
          | none => none
          | some (out, b) => some (⟨out.queue, t :: out.trace, out.raised⟩, b)

/-- execution_priority_queue::execute_high: look at the top handler; if its
priority is below priority::high, stop without executing it; otherwise
execute it, pop, and continue. -/
def execute_high : Nat → List Task → Option DrainOut
  | 0, _ => none
  | fuel + 1, q =>
    match popMax q with
    | none => some ⟨q, [], false⟩
    | some (t, _) =>
      if t.prio < priority.high then some ⟨q, [], false⟩
      else
        let s := runAct t.act q
        if s.2 then some ⟨s.1, [t], true⟩
        else
          match execute_high fuel (qpop s.1) with
          | none => none
          | some out => some ⟨out.queue, t :: out.trace, out.raised⟩

/-- Queues whose handlers neither throw nor enqueue. -/
def Plain (q : List Task) : Prop := ∀ t ∈ q, t.act = Act.ret

/-- Queues whose handlers do not enqueue new work (they may throw). -/
def NoEnq (q : List Task) : Prop := ∀ t ∈ q, t.act = Act.ret ∨ t.act = Act.raise

theorem popMax_eq_none {q : List Task} (h : popMax q = none) : q = [] := by
  cases q with
  | nil => rfl
  | cons t rest =>
    simp only [popMax] at h
    cases hp : popMax rest with
    | none => rw [hp] at h; simp at h
    | some ur =>
      rw [hp] at h
      obtain ⟨u, r⟩ := ur
      by_cases hc : t.prio < u.prio <;> simp [hc] at h

theorem popMax_perm {q : List Task} {t : Task} {r : List Task}
    (h : popMax q = some (t, r)) : List.Perm (t :: r) q := by
  induction q generalizing t r with
  | nil => simp [popMax] at h
  | cons a rest ih =>
    simp only [popMax] at h
    cases hp : popMax rest with
    | none =>
      rw [hp] at h
      have hrest : rest = [] := popMax_eq_none hp
      simp only [Option.some.injEq, Prod.mk.injEq] at h
      obtain ⟨h1, h2⟩ := h
      subst h1; subst h2; subst hrest
      exact List.Perm.refl _
    | some ur =>
      obtain ⟨u, r2⟩ := ur
      rw [hp] at h
      dsimp only at h
      by_cases hc : a.prio < u.prio
      · rw [if_pos hc] at h
        simp only [Option.some.injEq, Prod.mk.injEq] at h
        obtain ⟨h1, h2⟩ := h
        subst h1; subst h2
        exact List.Perm.trans (List.Perm.swap _ _ _) (List.Perm.cons a (ih hp))
      · rw [if_neg hc] at h
        simp only [Option.some.injEq, Prod.mk.injEq] at h
        obtain ⟨h1, h2⟩ := h
        subst h1; subst h2
        exact List.Perm.refl _

theorem popMax_le {q : List Task} {t : Task} {r : List Task}
    (h : popMax q = some (t, r)) : ∀ u ∈ q, u.prio ≤ t.prio := by
  induction q generalizing t r with
  | nil => simp [popMax] at h
  | cons a rest ih =>
    simp only [popMax] at h
    cases hp : popMax rest with
    | none =>
      rw [hp] at h
      have hrest : rest = [] := popMax_eq_none hp
      simp only [Option.some.injEq, Prod.mk.injEq] at h
      obtain ⟨h1, _⟩ := h
      subst h1; subst hrest
      intro u hu
      simp at hu
      subst hu
      exact le_refl _
    | some ur =>
      obtain ⟨u0, r2⟩ := ur
      rw [hp] at h
      dsimp only at h
      by_cases hc : a.prio < u0.prio
      · rw [if_pos hc] at h
        simp only [Option.some.injEq, Prod.mk.injEq] at h
        obtain ⟨h1, _⟩ := h
        subst h1
        intro u hu
        rcases List.mem_cons.mp hu with h' | h'
        · subst h'; exact le_of_lt hc
        · exact ih hp u h'
      · rw [if_neg hc] at h
        simp only [Option.some.injEq, Prod.mk.injEq] at h
        obtain ⟨h1, _⟩ := h
        subst h1
        intro u hu
        rcases List.mem_cons.mp hu with h' | h'
        · subst h'; exact le_refl _
        · exact le_trans (ih hp u h') (not_lt.mp hc)

theorem popMax_mem {q : List Task} {t : Task} {r : List Task}
    (h : popMax q = some (t, r)) : t ∈ q :=
  (popMax_perm h).mem_iff.mp (List.mem_cons_self t r)

theorem popMax_length {q : List Task} {t : Task} {r : List Task}
    (h : popMax q = some (t, r)) : r.length + 1 = q.length := by
  have := (popMax_perm h).length_eq
  simpa using this

theorem qpop_eq {q : List Task} {t : Task} {r : List Task}
    (h : popMax q = some (t, r)) : qpop q = r := by
  simp [qpop, h]

theorem execute_all_step_ret {q : List Task} {t : Task} {rest : List Task} (fuel : Nat)
    (hq : popMax q = some (t, rest)) (hta : t.act = Act.ret) :
    execute_all (fuel + 1) q =
      match execute_all fuel rest with
      | none => none
      | some out => some ⟨out.queue, t :: out.trace, out.raised⟩ := by
  simp only [execute_all, hq, hta, runAct]
  simp [qpop_eq hq]

theorem execute_all_step_raise {q : List Task} {t : Task} {rest : List Task} (fuel : Nat)
    (hq : popMax q = some (t, rest)) (hta : t.act = Act.raise) :
    execute_all (fuel + 1) q = some ⟨q, [t], true⟩ := by
  simp only [execute_all, hq, hta, runAct]
  simp

theorem execute_highest_step_low {q : List Task} {t : Task} {rest : List Task} (fuel : Nat)
    (hq : popMax q = some (t, rest)) (hta : t.act = Act.ret)
    (hlow : t.prio < priority.high) :
    execute_highest (fuel + 1) q = some (⟨rest, [t], false⟩, some (!rest.isEmpty)) := by
  simp only [execute_highest, hq, hta, runAct]
  simp [qpop_eq hq, hlow]

theorem execute_highest_step_high {q : List Task} {t : Task} {rest : List Task} (fuel : Nat)
    (hq : popMax q = some (t, rest)) (hta : t.act = Act.ret)
    (hlow : ¬ t.prio < priority.high) :
    execute_highest (fuel + 1) q =
      match execute_highest fuel rest with
      | none => none
      | some (out, b) => some (⟨out.queue, t :: out.trace, out.raised⟩, b) := by
  simp only [execute_highest, hq, hta, runAct]
  simp [qpop_eq hq, hlow]

theorem execute_high_step_low {q : List Task} {t : Task} {rest : List Task} (fuel : Nat)
    (hq : popMax q = some (t, rest)) (hlow : t.prio < priority.high) :
    execute_high (fuel + 1) q = some ⟨q, [], false⟩ := by
  simp only [execute_high, hq]
  simp [hlow]

theorem execute_high_step_high {q : List Task} {t : Task} {rest : List Task} (fuel : Nat)
    (hq : popMax q = some (t, rest)) (hta : t.act = Act.ret)
    (hlow : ¬ t.prio < priority.high) :
    execute_high (fuel + 1) q =
      match execute_high fuel rest with
      | none => none
      | some out => some ⟨out.queue, t :: out.trace, out.raised⟩ := by
  simp only [execute_high, hq, hta, runAct]
  simp [qpop_eq hq, hlow]

theorem execute_highest_step_raise {q : List Task} {t : Task} {rest : List Task} (fuel : Nat)
    (hq : popMax q = some (t, rest)) (hta : t.act = Act.raise) :
    execute_highest (fuel + 1) q = some (⟨q, [t], true⟩, none) := by
  simp only [execute_highest, hq, hta, runAct]
  simp

theorem execute_high_step_raise {q : List Task} {t : Task} {rest : List Task} (fuel : Nat)
    (hq : popMax q = some (t, rest)) (hta : t.act = Act.raise)
    (hlow : ¬ t.prio < priority.high) :
    execute_high (fuel + 1) q = some ⟨q, [t], true⟩ := by
  simp only [execute_high, hq, hta, runAct]
  simp [hlow]

theorem execute_all_plain : ∀ (n : Nat) (q : List Task), q.length = n → Plain q →
    ∃ out, execute_all (q.length + 1) q = some out ∧ out.queue = [] ∧
      out.raised = false ∧ List.Perm out.trace q ∧
      (out.trace.map Task.prio).Sorted (fun a b => b ≤ a) := by
  intro n
  induction n with
  | zero =>
    intro q hl _
    have hq : q = [] := List.length_eq_zero.mp hl
    subst hq
    exact ⟨⟨[], [], false⟩, by simp [execute_all, popMax], rfl, rfl, List.Perm.refl _, by simp⟩
  | succ n ih =>
    intro q hl hp
    cases hq : popMax q with
    | none =>
      have := popMax_eq_none hq
      subst this
      simp at hl
    | some tr =>
      obtain ⟨t, rest⟩ := tr
      have htmem : t ∈ q := popMax_mem hq
      have hta : t.act = Act.ret := hp t htmem
      have hperm : List.Perm (t :: rest) q := popMax_perm hq
      have hrl : rest.length = n := by
        have := popMax_length hq
        omega
      have hrp : Plain rest := fun u hu => hp u (hperm.mem_iff.mp (List.mem_cons_of_mem t hu))
      obtain ⟨out, hout, hq0, hr0, hpm, hsort⟩ := ih rest hrl hrp
      rw [hrl] at hout
      refine ⟨⟨out.queue, t :: out.trace, out.raised⟩, ?_, hq0, hr0, ?_, ?_⟩
      · rw [hl, execute_all_step_ret (n + 1) hq hta, hout]
      · exact List.Perm.trans (List.Perm.cons t hpm) hperm
      · simp only [List.map_cons, List.sorted_cons]
        refine ⟨?_, hsort⟩
        intro b hb
        simp only [List.mem_map] at hb
        obtain ⟨u, hu, hub⟩ := hb
        subst hub
        exact popMax_le hq u (hperm.mem_iff.mp (List.mem_cons_of_mem t (hpm.mem_iff.mp hu)))

theorem execute_all_noenq : ∀ (n : Nat) (q : List Task), q.length = n → NoEnq q →
    ∃ out, execute_all (q.length + 1) q = some out ∧
      (out.raised = false → out.queue = [] ∧ List.Perm out.trace q) ∧
      (out.raised = true → ∃ pre r, out.trace = pre ++ [r] ∧ r.act = Act.raise ∧
        (∀ u ∈ pre, u.act = Act.ret) ∧ List.Perm (pre ++ out.queue) q ∧ r ∈ out.queue ∧
        execute_all (out.queue.length + 1) out.queue = some ⟨out.queue, [r], true⟩) := by
  intro n
  induction n with
  | zero =>
    intro q hl _
    have hq : q = [] := List.length_eq_zero.mp hl
    subst hq
    refine ⟨⟨[], [], false⟩, by simp [execute_all, popMax], fun _ => ⟨rfl, List.Perm.refl _⟩, ?_⟩
    intro h
    simp at h
  | succ n ih =>
    intro q hl hp
    cases hq : popMax q with
    | none =>
      have := popMax_eq_none hq
      subst this
      simp at hl
    | some tr =>
      obtain ⟨t, rest⟩ := tr
      have htmem : t ∈ q := popMax_mem hq
      have hperm : List.Perm (t :: rest) q := popMax_perm hq
      have hrl : rest.length = n := by
        have := popMax_length hq
        omega
      rcases hp t htmem with hta | hta
      · -- the top handler returns normally
        have hrp : NoEnq rest := fun u hu => hp u (hperm.mem_iff.mp (List.mem_cons_of_mem t hu))
        obtain ⟨out, hout, hok, hraise⟩ := ih rest hrl hrp
        rw [hrl] at hout
        refine ⟨⟨out.queue, t :: out.trace, out.raised⟩, ?_, ?_, ?_⟩
        · rw [hl, execute_all_step_ret (n + 1) hq hta, hout]
        · intro h
          obtain ⟨h1, h2⟩ := hok h
          exact ⟨h1, List.Perm.trans (List.Perm.cons t h2) hperm⟩
        · intro h
          obtain ⟨pre, r, htr, hra, hpre, hpm, hrm, hrepeat⟩ := hraise h
          refine ⟨t :: pre, r, by simp [htr], hra, ?_, ?_, hrm, hrepeat⟩
          · intro u hu
            rcases List.mem_cons.mp hu with h2 | h2
            · subst h2; exact hta
            · exact hpre u h2
          · have h3 : List.Perm (t :: (pre ++ out.queue)) (t :: rest) :=
              List.Perm.cons t hpm
            simpa using List.Perm.trans h3 hperm
      · -- the top handler throws: it is executed but never popped
        have hcomp : execute_all (q.length + 1) q = some ⟨q, [t], true⟩ := by
          rw [hl]
          exact execute_all_step_raise (n + 1) hq hta
        refine ⟨⟨q, [t], true⟩, hcomp, ?_, ?_⟩
        · intro h
          simp at h
        · intro _
          refine ⟨[], t, by simp, hta, by simp, by simp, htmem, hcomp⟩

theorem execute_highest_noenq : ∀ (n : Nat) (q : List Task), q.length = n → NoEnq q →
    ∃ out b, execute_highest (q.length + 1) q = some (out, b) ∧
      (out.raised = false → b = some (!out.queue.isEmpty) ∧
        List.Perm (out.trace ++ out.queue) q) ∧
      (out.raised = true → b = none ∧ ∃ pre r, out.trace = pre ++ [r] ∧ r.act = Act.raise ∧
        (∀ u ∈ pre, u.act = Act.ret) ∧ List.Perm (pre ++ out.queue) q ∧ r ∈ out.queue ∧
        execute_highest (out.queue.length + 1) out.queue =
          some (⟨out.queue, [r], true⟩, none)) := by
  intro n
  induction n with
  | zero =>
    intro q hl _
    have hq : q = [] := List.length_eq_zero.mp hl
    subst hq
    refine ⟨⟨[], [], false⟩, some false, by simp [execute_highest, popMax], ?_, ?_⟩
    · intro _
      exact ⟨by simp, List.Perm.refl _⟩
    · intro h
      simp at h
  | succ n ih =>
    intro q hl hp
    cases hq : popMax q with
    | none =>
      have := popMax_eq_none hq
      subst this
      simp at hl
    | some tr =>
      obtain ⟨t, rest⟩ := tr
      have htmem : t ∈ q := popMax_mem hq
      have hperm : List.Perm (t :: rest) q := popMax_perm hq
      have hrl : rest.length = n := by
        have := popMax_length hq
        omega
      rcases hp t htmem with hta | hta
      · -- the top handler returns normally
        by_cases hlow : t.prio < priority.high
        · refine ⟨⟨rest, [t], false⟩, some (!rest.isEmpty), ?_, ?_, ?_⟩
          · rw [hl, execute_highest_step_low (n + 1) hq hta hlow]
          · intro _
            exact ⟨rfl, by simpa using hperm⟩
          · intro h
            simp at h
        · have hrp : NoEnq rest := fun u hu => hp u (hperm.mem_iff.mp (List.mem_cons_of_mem t hu))
          obtain ⟨out, b, hout, hf, ht⟩ := ih rest hrl hrp
          rw [hrl] at hout
          refine ⟨⟨out.queue, t :: out.trace, out.raised⟩, b, ?_, ?_, ?_⟩
          · rw [hl, execute_highest_step_high (n + 1) hq hta hlow, hout]
          · intro h
            obtain ⟨hb, hpm⟩ := hf h
            refine ⟨hb, ?_⟩
            have h3 : List.Perm (t :: (out.trace ++ out.queue)) (t :: rest) :=
              List.Perm.cons t hpm
            simpa using List.Perm.trans h3 hperm
          · intro h
            obtain ⟨hb, pre, r, htr, hra, hpre, hpm, hrm, hrep⟩ := ht h
            refine ⟨hb, t :: pre, r, by simp [htr], hra, ?_, ?_, hrm, hrep⟩
            · intro u hu
              rcases List.mem_cons.mp hu with h2 | h2
              · subst h2; exact hta
              · exact hpre u h2
            · have h3 : List.Perm (t :: (pre ++ out.queue)) (t :: rest) :=
                List.Perm.cons t hpm
              simpa using List.Perm.trans h3 hperm
      · -- the top handler throws: it is executed but never popped
        have hcomp : execute_highest (q.length + 1) q = some (⟨q, [t], true⟩, none) := by
          rw [hl]
          exact execute_highest_step_raise (n + 1) hq hta
        refine ⟨⟨q, [t], true⟩, none, hcomp, ?_, ?_⟩
        · intro h
          simp at h
        · intro _
          exact ⟨rfl, [], t, by simp, hta, by simp, by simp, htmem, hcomp⟩

theorem execute_high_noenq : ∀ (n : Nat) (q : List Task), q.length = n → NoEnq q →
    ∃ out, execute_high (q.length + 1) q = some out ∧
      (out.raised = false → List.Perm (out.trace ++ out.queue) q) ∧
      (out.raised = true → ∃ pre r, out.trace = pre ++ [r] ∧ r.act = Act.raise ∧
        priority.high ≤ r.prio ∧ (∀ u ∈ pre, u.act = Act.ret) ∧
        List.Perm (pre ++ out.queue) q ∧ r ∈ out.queue ∧
        execute_high (out.queue.length + 1) out.queue = some ⟨out.queue, [r], true⟩) := by
  intro n
  induction n with
  | zero =>
    intro q hl _
    have hq : q = [] := List.length_eq_zero.mp hl
    subst hq
    refine ⟨⟨[], [], false⟩, by simp [execute_high, popMax], ?_, ?_⟩
    · intro _
      exact List.Perm.refl _
    · intro h
      simp at h
  | succ n ih =>
    intro q hl hp
    cases hq : popMax q with
    | none =>
      have := popMax_eq_none hq
      subst this
      simp at hl
    | some tr =>
      obtain ⟨t, rest⟩ := tr
      have htmem : t ∈ q := popMax_mem hq
      have hperm : List.Perm (t :: rest) q := popMax_perm hq
      have hrl : rest.length = n := by
        have := popMax_length hq
        omega
      by_cases hlow : t.prio < priority.high
      · -- the top is below high: stop without executing anything
        refine ⟨⟨q, [], false⟩, ?_, ?_, ?_⟩
        · rw [hl, execute_high_step_low (n + 1) hq hlow]
        · intro _
          exact List.Perm.refl _
        · intro h
          simp at h
      · rcases hp t htmem with hta | hta
        · -- the top is at or above high and returns normally
          have hrp : NoEnq rest := fun u hu => hp u (hperm.mem_iff.mp (List.mem_cons_of_mem t hu))
          obtain ⟨out, hout, hf, ht⟩ := ih rest hrl hrp
          rw [hrl] at hout
          refine ⟨⟨out.queue, t :: out.trace, out.raised⟩, ?_, ?_, ?_⟩
          · rw [hl, execute_high_step_high (n + 1) hq hta hlow, hout]
          · intro h
            have h3 : List.Perm (t :: (out.trace ++ out.queue)) (t :: rest) :=
              List.Perm.cons t (hf h)
            simpa using List.Perm.trans h3 hperm
          · intro h
            obtain ⟨pre, r, htr, hra, hrh, hpre, hpm, hrm, hrep⟩ := ht h
            refine ⟨t :: pre, r, by simp [htr], hra, hrh, ?_, ?_, hrm, hrep⟩
            · intro u hu
              rcases List.mem_cons.mp hu with h2 | h2
              · subst h2; exact hta
              · exact hpre u h2
            · have h3 : List.Perm (t :: (pre ++ out.queue)) (t :: rest) :=
                List.Perm.cons t hpm
              simpa using List.Perm.trans h3 hperm
        · -- the top is at or above high and throws
          have hcomp : execute_high (q.length + 1) q = some ⟨q, [t], true⟩ := by
            rw [hl]
            exact execute_high_step_raise (n + 1) hq hta hlow
          refine ⟨⟨q, [t], true⟩, hcomp, ?_, ?_⟩
          · intro h
            simp at h
          · intro _
            exact ⟨[], t, by simp, hta, not_lt.mp hlow, by simp, by simp, htmem, hcomp⟩

theorem execute_highest_plain : ∀ (n : Nat) (q : List Task), q.length = n → Plain q →
    ∃ out b, execute_highest (q.length + 1) q = some (out, some b) ∧
      out.raised = false ∧ b = !out.queue.isEmpty ∧
      List.Perm (out.trace ++ out.queue) q ∧
      (out.trace.map Task.prio).Sorted (fun a b => b ≤ a) ∧
      (∀ u ∈ out.queue, u.prio < priority.high) ∧
      (out.trace.filter (fun u => u.prio < priority.high)).length ≤ 1 ∧
      ((∃ u ∈ q, u.prio < priority.high) →
        (out.trace.filter (fun u => u.prio < priority.high)).length = 1) ∧
      ((∀ u ∈ q, priority.high ≤ u.prio) → out.queue = []) := by
  intro n
  induction n with
  | zero =>
    intro q hl _
    have hq : q = [] := List.length_eq_zero.mp hl
    subst hq
    refine ⟨⟨[], [], false⟩, false, by simp [execute_highest, popMax], rfl, by simp, List.Perm.refl _, by simp, ?_, by simp, ?_, fun _ => rfl⟩
    · intro u hu
      simp at hu
    · intro h
      simp at h
  | succ n ih =>
    intro q hl hp
    cases hq : popMax q with
    | none =>
      have := popMax_eq_none hq
      subst this
      simp at hl
    | some tr =>
      obtain ⟨t, rest⟩ := tr
      have htmem : t ∈ q := popMax_mem hq
      have hta : t.act = Act.ret := hp t htmem
      have hperm : List.Perm (t :: rest) q := popMax_perm hq
      have hrl : rest.length = n := by
        have := popMax_length hq
        omega
      have hrp : Plain rest := fun u hu => hp u (hperm.mem_iff.mp (List.mem_cons_of_mem t hu))
      by_cases hlow : t.prio < priority.high
      · -- a below-high handler was executed: break
        refine ⟨⟨rest, [t], false⟩, !rest.isEmpty, ?_, rfl, rfl, ?_, by simp, ?_, ?_, ?_, ?_⟩
        · rw [hl, execute_highest_step_low (n + 1) hq hta hlow]
        · simpa using hperm
        · intro u hu
          exact lt_of_le_of_lt (popMax_le hq u (hperm.mem_iff.mp (List.mem_cons_of_mem t hu))) hlow
        · simp [hlow]
        · intro _
          simp [hlow]
        · intro h
          exact absurd (h t htmem) (not_le.mpr hlow)
      · -- the top handler is at or above high: continue draining
        obtain ⟨out, b, hout, hr0, hb, hpm, hsort, hql, hcnt, hcnt1, hhigh⟩ := ih rest hrl hrp
        rw [hrl] at hout
        refine ⟨⟨out.queue, t :: out.trace, out.raised⟩, b, ?_, hr0, hb, ?_, ?_, hql, ?_, ?_, ?_⟩
        · rw [hl, execute_highest_step_high (n + 1) hq hta hlow, hout]
        · have h3 : List.Perm (t :: (out.trace ++ out.queue)) (t :: rest) :=
            List.Perm.cons t hpm
          simpa using List.Perm.trans h3 hperm
        · simp only [List.map_cons, List.sorted_cons]
          refine ⟨?_, hsort⟩
          intro p hpmem
          simp only [List.mem_map] at hpmem
          obtain ⟨u, hu, hup⟩ := hpmem
          subst hup
          have hu2 : u ∈ rest := hpm.mem_iff.mp (List.mem_append_left _ hu)
          exact popMax_le hq u (hperm.mem_iff.mp (List.mem_cons_of_mem t hu2))
        · simpa [List.filter_cons, hlow] using hcnt
        · intro hex
          obtain ⟨u, hu, hul⟩ := hex
          have hu2 : u ∈ rest := by
            rcases List.mem_cons.mp (hperm.mem_iff.mpr hu) with h2 | h2
            · exfalso
              rw [h2] at hul
              exact hlow hul
            · exact h2
          simpa [List.filter_cons, hlow] using hcnt1 ⟨u, hu2, hul⟩
        · intro hall
          exact hhigh fun u hu =>
            hall u (hperm.mem_iff.mp (List.mem_cons_of_mem t hu))

theorem execute_high_plain : ∀ (n : Nat) (q : List Task), q.length = n → Plain q →
    ∃ out, execute_high (q.length + 1) q = some out ∧ out.raised = false ∧
      List.Perm (out.trace ++ out.queue) q ∧
      (∀ u ∈ out.trace, priority.high ≤ u.prio) ∧
      (∀ u ∈ out.queue, u.prio < priority.high) ∧
      (out.trace.map Task.prio).Sorted (fun a b => b ≤ a) := by
  intro n
  induction n with
  | zero =>
    intro q hl _
    have hq : q = [] := List.length_eq_zero.mp hl
    subst hq
    refine ⟨⟨[], [], false⟩, by simp [execute_high, popMax], rfl, List.Perm.refl _, ?_, ?_, by simp⟩
    · intro u hu; simp at hu
    · intro u hu; simp at hu
  | succ n ih =>
    intro q hl hp
    cases hq : popMax q with
    | none =>
      have := popMax_eq_none hq
      subst this
      simp at hl
    | some tr =>
      obtain ⟨t, rest⟩ := tr
      have htmem : t ∈ q := popMax_mem hq
      have hta : t.act = Act.ret := hp t htmem
      have hperm : List.Perm (t :: rest) q := popMax_perm hq
      have hrl : rest.length = n := by
        have := popMax_length hq
        omega
      have hrp : Plain rest := fun u hu => hp u (hperm.mem_iff.mp (List.mem_cons_of_mem t hu))
      by_cases hlow : t.prio < priority.high
      · -- top is below high: stop without executing it
        refine ⟨⟨q, [], false⟩, ?_, rfl, List.Perm.refl _, ?_, ?_, by simp⟩
        · rw [hl, execute_high_step_low (n + 1) hq hlow]
        · intro u hu; simp at hu
        · intro u hu
          exact lt_of_le_of_lt (popMax_le hq u hu) hlow
      · obtain ⟨out, hout, hr0, hpm, hth, hql, hsort⟩ := ih rest hrl hrp
        rw [hrl] at hout
        refine ⟨⟨out.queue, t :: out.trace, out.raised⟩, ?_, hr0, ?_, ?_, hql, ?_⟩
        · rw [hl, execute_high_step_high (n + 1) hq hta hlow, hout]
        · have h3 : List.Perm (t :: (out.trace ++ out.queue)) (t :: rest) :=
            List.Perm.cons t hpm
          simpa using List.Perm.trans h3 hperm
        · intro u hu
          rcases List.mem_cons.mp hu with h2 | h2
          · subst h2; exact not_lt.mp hlow
          · exact hth u h2
        · simp only [List.map_cons, List.sorted_cons]
          refine ⟨?_, hsort⟩
          intro p hpmem
          simp only [List.mem_map] at hpmem
          obtain ⟨u, hu, hup⟩ := hpmem
          subst hup
          have hu2 : u ∈ rest := hpm.mem_iff.mp (List.mem_append_left _ hu)
          exact popMax_le hq u (hperm.mem_iff.mp (List.mem_cons_of_mem t hu2))

theorem execute_high_low_noop (q : List Task) (h : ∀ u ∈ q, u.prio < priority.high) :
    execute_high (q.length + 1) q = some ⟨q, [], false⟩ := by
  cases hq : popMax q with
  | none =>
    have := popMax_eq_none hq
    subst this
    simp [execute_high, popMax]
  | some tr =>
    obtain ⟨t, rest⟩ := tr
    exact execute_high_step_low q.length hq (h t (popMax_mem hq))



instance (q : List Task) : Decidable (Plain q) := by
  unfold Plain
  infer_instance

instance (q : List Task) : Decidable (NoEnq q) := by
  unfold NoEnq
  infer_instance

theorem add_all_cons (r : Int × Fn) (rs : List (Int × Fn)) (q : List Task) :
    add_all (r :: rs) q = add_all rs (add r.1 r.2 q) := rfl

theorem add_all_eq (rs : List (Int × Fn)) (q : List Task) :
    add_all rs q = q ++ rs.map (fun r => Task.mk r.1 r.2.tid r.2.act) := by
  induction rs generalizing q with
  | nil => simp [add_all]
  | cons r rs ih =>
    rw [add_all_cons, ih]
    simp [add]

/-- The submission facade (execution_priority_queue::executor) binds a
priority; the bound queue is threaded explicitly in the model. -/
structure executor where
  priority : Int
deriving DecidableEq

/-- executor::dispatch(Function, Allocator): context_.add(priority_, f);
the allocator argument is ignored by the source. -/
def executor.dispatch {A : Type} (e : executor) (f : Fn) (_alloc : A) (q : List Task) : List Task :=
  add e.priority f q

/-- executor::post(Function, Allocator): context_.add(priority_, f). -/
def executor.post {A : Type} (e : executor) (f : Fn) (_alloc : A) (q : List Task) : List Task :=
  add e.priority f q

/-- executor::defer(Function, Allocator): context_.add(priority_, f). -/
def executor.defer {A : Type} (e : executor) (f : Fn) (_alloc : A) (q : List Task) : List Task :=
  add e.priority f q

/-- Claim C1: execute_highest drains everything at or above the high tier
(priority 100) highest-priority-first, then executes exactly one additional
lower-priority task if any remains, then stops, and returns true iff the
queue is still non-empty afterwards; in particular on a queue of only
high-tier tasks it drains all of them and returns false, on one high and one
low task it executes both and returns false, and on one high and two low
tasks it executes the high task plus exactly one low task and returns
true. -/
theorem C1_execute_highest :
    (∀ q : List Task, Plain q →
      ∃ out b, execute_highest (q.length + 1) q = some (out, some b) ∧
        out.raised = false ∧ b = !out.queue.isEmpty ∧
        List.Perm (out.trace ++ out.queue) q ∧
        (out.trace.map Task.prio).Sorted (fun a b => b ≤ a) ∧
        (∀ u ∈ out.queue, u.prio < priority.high) ∧
        (out.trace.filter (fun u => u.prio < priority.high)).length ≤ 1 ∧
        ((∃ u ∈ q, u.prio < priority.high) →
          (out.trace.filter (fun u => u.prio < priority.high)).length = 1) ∧
        ((∀ u ∈ q, priority.high ≤ u.prio) → out.queue = [])) ∧
    execute_highest 3 [⟨100, 0, Act.ret⟩, ⟨100, 1, Act.ret⟩] =
      some (⟨[], [⟨100, 0, Act.ret⟩, ⟨100, 1, Act.ret⟩], false⟩, some false) ∧
    execute_highest 3 [⟨100, 0, Act.ret⟩, ⟨10, 1, Act.ret⟩] =
      some (⟨[], [⟨100, 0, Act.ret⟩, ⟨10, 1, Act.ret⟩], false⟩, some false) ∧
    execute_highest 4 [⟨100, 0, Act.ret⟩, ⟨10, 1, Act.ret⟩, ⟨10, 2, Act.ret⟩] =
      some (⟨[⟨10, 2, Act.ret⟩], [⟨100, 0, Act.ret⟩, ⟨10, 1, Act.ret⟩], false⟩, some true) :=
  ⟨fun q hp => execute_highest_plain q.length q rfl hp, by decide, by decide, by decide⟩

/-- Witness for C1 at the concrete queue [prio 50, prio 120]. -/
theorem C1_execute_highest_witness :
    Plain [⟨50, 3, Act.ret⟩, ⟨120, 4, Act.ret⟩] ∧
    (∃ out b, execute_highest ([(⟨50, 3, Act.ret⟩ : Task), ⟨120, 4, Act.ret⟩].length + 1)
        [⟨50, 3, Act.ret⟩, ⟨120, 4, Act.ret⟩] = some (out, some b) ∧
      out.raised = false ∧ b = !out.queue.isEmpty ∧
      List.Perm (out.trace ++ out.queue) [⟨50, 3, Act.ret⟩, ⟨120, 4, Act.ret⟩] ∧
      (out.trace.map Task.prio).Sorted (fun a b => b ≤ a) ∧
      (∀ u ∈ out.queue, u.prio < priority.high) ∧
      (out.trace.filter (fun u => u.prio < priority.high)).length ≤ 1 ∧
      ((∃ u ∈ [(⟨50, 3, Act.ret⟩ : Task), ⟨120, 4, Act.ret⟩], u.prio < priority.high) →
        (out.trace.filter (fun u => u.prio < priority.high)).length = 1) ∧
      ((∀ u ∈ [(⟨50, 3, Act.ret⟩ : Task), ⟨120, 4, Act.ret⟩], priority.high ≤ u.prio) →
        out.queue = [])) :=
  ⟨by decide, C1_execute_highest.1 [⟨50, 3, Act.ret⟩, ⟨120, 4, Act.ret⟩] (by decide)⟩

/-- Claim C2 counterexample: every drain executes the top handler before
popping it (top()->execute(); pop()), so a throwing handler stays in the
queue: execute_all and execute_highest on a queue whose only handler throws,
and execute_high on a queue whose only handler is high-tier and throws, each
abort with that handler still queued — and the same drain applied to the
returned queue is the very same call, executing the same handler a second
time. This refutes the claim that tasks are popped before execution, that
the failing task is lost, and that no task is ever executed more than once
across drain calls. -/
theorem C2_counterexample :
    execute_all 2 [⟨50, 0, Act.raise⟩] =
      some ⟨[⟨50, 0, Act.raise⟩], [⟨50, 0, Act.raise⟩], true⟩ ∧
    execute_highest 2 [⟨50, 0, Act.raise⟩] =
      some (⟨[⟨50, 0, Act.raise⟩], [⟨50, 0, Act.raise⟩], true⟩, none) ∧
    execute_high 2 [⟨150, 0, Act.raise⟩] =
      some ⟨[⟨150, 0, Act.raise⟩], [⟨150, 0, Act.raise⟩], true⟩ := by
  decide

/-- Claim C2 amended: during any drain call (execute_all, execute_highest,
execute_high) the task at the top of the queue is executed and then a pop
removes the top, one task at a time; tasks that complete normally are
removed and executed exactly once within the call, but if a task raises an
uncaught error the drain call aborts (execute_highest then returns no value)
with the tasks executed earlier in the call removed while the failing task
itself is still in the queue — not lost and not requeued, since it was never
popped — so a subsequent call of the same drain operation executes the
failing task again; execute_high only ever executes (hence only aborts on)
tasks at or above the high tier. -/
theorem C2_execute_then_pop :
    ∀ q : List Task, NoEnq q →
      (∃ out, execute_all (q.length + 1) q = some out ∧
        (out.raised = false → out.queue = [] ∧ List.Perm out.trace q) ∧
        (out.raised = true → ∃ pre r, out.trace = pre ++ [r] ∧ r.act = Act.raise ∧
          (∀ u ∈ pre, u.act = Act.ret) ∧ List.Perm (pre ++ out.queue) q ∧ r ∈ out.queue ∧
          execute_all (out.queue.length + 1) out.queue = some ⟨out.queue, [r], true⟩)) ∧
      (∃ out b, execute_highest (q.length + 1) q = some (out, b) ∧
        (out.raised = false → b = some (!out.queue.isEmpty) ∧
          List.Perm (out.trace ++ out.queue) q) ∧
        (out.raised = true → b = none ∧ ∃ pre r, out.trace = pre ++ [r] ∧ r.act = Act.raise ∧
          (∀ u ∈ pre, u.act = Act.ret) ∧ List.Perm (pre ++ out.queue) q ∧ r ∈ out.queue ∧
          execute_highest (out.queue.length + 1) out.queue =
            some (⟨out.queue, [r], true⟩, none))) ∧
      (∃ out, execute_high (q.length + 1) q = some out ∧
        (out.raised = false → List.Perm (out.trace ++ out.queue) q) ∧
        (out.raised = true → ∃ pre r, out.trace = pre ++ [r] ∧ r.act = Act.raise ∧
          priority.high ≤ r.prio ∧ (∀ u ∈ pre, u.act = Act.ret) ∧
          List.Perm (pre ++ out.queue) q ∧ r ∈ out.queue ∧
          execute_high (out.queue.length + 1) out.queue = some ⟨out.queue, [r], true⟩)) :=
  fun q hq => ⟨execute_all_noenq q.length q rfl hq,
    execute_highest_noenq q.length q rfl hq,
    execute_high_noenq q.length q rfl hq⟩

/-- Witness for C2 at a queue whose high-tier task throws and whose low-tier
task returns normally. -/
theorem C2_execute_then_pop_witness :
    NoEnq [⟨150, 7, Act.raise⟩, ⟨10, 8, Act.ret⟩] ∧
    ((∃ out, execute_all ([(⟨150, 7, Act.raise⟩ : Task), ⟨10, 8, Act.ret⟩].length + 1)
        [⟨150, 7, Act.raise⟩, ⟨10, 8, Act.ret⟩] = some out ∧
      (out.raised = false → out.queue = [] ∧
        List.Perm out.trace [⟨150, 7, Act.raise⟩, ⟨10, 8, Act.ret⟩]) ∧
      (out.raised = true → ∃ pre r, out.trace = pre ++ [r] ∧ r.act = Act.raise ∧
        (∀ u ∈ pre, u.act = Act.ret) ∧
        List.Perm (pre ++ out.queue) [⟨150, 7, Act.raise⟩, ⟨10, 8, Act.ret⟩] ∧
        r ∈ out.queue ∧
        execute_all (out.queue.length + 1) out.queue = some ⟨out.queue, [r], true⟩)) ∧
    (∃ out b, execute_highest ([(⟨150, 7, Act.raise⟩ : Task), ⟨10, 8, Act.ret⟩].length + 1)
        [⟨150, 7, Act.raise⟩, ⟨10, 8, Act.ret⟩] = some (out, b) ∧
      (out.raised = false → b = some (!out.queue.isEmpty) ∧
        List.Perm (out.trace ++ out.queue) [⟨150, 7, Act.raise⟩, ⟨10, 8, Act.ret⟩]) ∧
      (out.raised = true → b = none ∧ ∃ pre r, out.trace = pre ++ [r] ∧ r.act = Act.raise ∧
        (∀ u ∈ pre, u.act = Act.ret) ∧
        List.Perm (pre ++ out.queue) [⟨150, 7, Act.raise⟩, ⟨10, 8, Act.ret⟩] ∧
        r ∈ out.queue ∧
        execute_highest (out.queue.length + 1) out.queue =
          some (⟨out.queue, [r], true⟩, none))) ∧
    (∃ out, execute_high ([(⟨150, 7, Act.raise⟩ : Task), ⟨10, 8, Act.ret⟩].length + 1)
        [⟨150, 7, Act.raise⟩, ⟨10, 8, Act.ret⟩] = some out ∧
      (out.raised = false →
        List.Perm (out.trace ++ out.queue) [⟨150, 7, Act.raise⟩, ⟨10, 8, Act.ret⟩]) ∧
      (out.raised = true → ∃ pre r, out.trace = pre ++ [r] ∧ r.act = Act.raise ∧
        priority.high ≤ r.prio ∧ (∀ u ∈ pre, u.act = Act.ret) ∧
        List.Perm (pre ++ out.queue) [⟨150, 7, Act.raise⟩, ⟨10, 8, Act.ret⟩] ∧
        r ∈ out.queue ∧
        execute_high (out.queue.length + 1) out.queue = some ⟨out.queue, [r], true⟩))) :=
  ⟨by decide, C2_execute_then_pop [⟨150, 7, Act.raise⟩, ⟨10, 8, Act.ret⟩] (by decide)⟩

/-- Claim C3: the three submission verbs dispatch, post and defer behave
identically for every task, allocator and bound priority: each enqueues the
task on the bound queue at the bound priority exactly as add(priority, task)
does, and add merely appends the wrapped handler, leaving the rest of the
queue untouched and executing nothing. -/
theorem C3_verbs_identical :
    ∀ (A : Type) (a : A) (e : executor) (f : Fn) (q : List Task),
      e.dispatch f a q = add e.priority f q ∧
      e.post f a q = add e.priority f q ∧
      e.defer f a q = add e.priority f q ∧
      add e.priority f q = q ++ [⟨e.priority, f.tid, f.act⟩] :=
  fun _ _ _ _ _ => ⟨rfl, rfl, rfl, rfl⟩

/-- Claim C9: for every sequence of add(priority, task) calls followed by
execute_all, the tasks execute in non-increasing priority order, every added
task executes exactly once (the trace is a permutation of the added tasks),
and the queue is empty when execute_all returns. -/
theorem C9_execute_all_order :
    ∀ rs : List (Int × Fn), (∀ r ∈ rs, r.2.act = Act.ret) →
      ∃ out, execute_all ((add_all rs []).length + 1) (add_all rs []) = some out ∧
        out.queue = [] ∧ out.raised = false ∧
        List.Perm out.trace (rs.map (fun r => Task.mk r.1 r.2.tid r.2.act)) ∧
        (out.trace.map Task.prio).Sorted (fun a b => b ≤ a) := by
  intro rs hrs
  have hq : add_all rs [] = rs.map (fun r => Task.mk r.1 r.2.tid r.2.act) := by
    simpa using add_all_eq rs []
  have hp : Plain (add_all rs []) := by
    rw [hq]
    intro t ht
    simp only [List.mem_map] at ht
    obtain ⟨r, hr, hrt⟩ := ht
    rw [← hrt]
    exact hrs r hr
  obtain ⟨out, h1, h2, h3, h4, h5⟩ := execute_all_plain (add_all rs []).length (add_all rs []) rfl hp
  exact ⟨out, h1, h2, h3, hq ▸ h4, h5⟩

/-- Witness for C9 at a concrete add sequence. -/
theorem C9_execute_all_order_witness :
    (∀ r ∈ [((10 : Int), Fn.mk 0 Act.ret), ((100 : Int), Fn.mk 1 Act.ret)], r.2.act = Act.ret) ∧
    (∃ out, execute_all ((add_all [((10 : Int), Fn.mk 0 Act.ret), ((100 : Int), Fn.mk 1 Act.ret)] []).length + 1)
        (add_all [((10 : Int), Fn.mk 0 Act.ret), ((100 : Int), Fn.mk 1 Act.ret)] []) = some out ∧
      out.queue = [] ∧ out.raised = false ∧
      List.Perm out.trace
        ([((10 : Int), Fn.mk 0 Act.ret), ((100 : Int), Fn.mk 1 Act.ret)].map
          (fun r => Task.mk r.1 r.2.tid r.2.act)) ∧
      (out.trace.map Task.prio).Sorted (fun a b => b ≤ a)) :=
  ⟨by decide, C9_execute_all_order [((10 : Int), Fn.mk 0 Act.ret), ((100 : Int), Fn.mk 1 Act.ret)] (by decide)⟩

/-- Claim C10: execute_high executes only tasks at or above the high tier,
stopping as soon as the top of the queue is below that threshold and leaving
the rest queued; a repeated execute_high on the remaining queue executes
nothing and changes nothing, so across any number of repeated calls no task
below high is ever executed and only entries below the high threshold
remain. -/
theorem C10_execute_high :
    ∀ q : List Task, Plain q →
      ∃ out, execute_high (q.length + 1) q = some out ∧ out.raised = false ∧
        List.Perm (out.trace ++ out.queue) q ∧
        (∀ u ∈ out.trace, priority.high ≤ u.prio) ∧
        (∀ u ∈ out.queue, u.prio < priority.high) ∧
        (out.trace.map Task.prio).Sorted (fun a b => b ≤ a) ∧
        execute_high (out.queue.length + 1) out.queue = some ⟨out.queue, [], false⟩ := by
  intro q hp
  obtain ⟨out, h1, h2, h3, h4, h5, h6⟩ := execute_high_plain q.length q rfl hp
  exact ⟨out, h1, h2, h3, h4, h5, h6, execute_high_low_noop out.queue h5⟩

/-- Witness for C10 at a concrete mixed queue. -/
theorem C10_execute_high_witness :
    Plain [⟨10, 0, Act.ret⟩, ⟨150, 1, Act.ret⟩, ⟨100, 2, Act.ret⟩] ∧
    (∃ out, execute_high ([(⟨10, 0, Act.ret⟩ : Task), ⟨150, 1, Act.ret⟩, ⟨100, 2, Act.ret⟩].length + 1)
        [⟨10, 0, Act.ret⟩, ⟨150, 1, Act.ret⟩, ⟨100, 2, Act.ret⟩] = some out ∧
      out.raised = false ∧
      List.Perm (out.trace ++ out.queue) [⟨10, 0, Act.ret⟩, ⟨150, 1, Act.ret⟩, ⟨100, 2, Act.ret⟩] ∧
      (∀ u ∈ out.trace, priority.high ≤ u.prio) ∧
      (∀ u ∈ out.queue, u.prio < priority.high) ∧
      (out.trace.map Task.prio).Sorted (fun a b => b ≤ a) ∧
      execute_high (out.queue.length + 1) out.queue = some ⟨out.queue, [], false⟩) :=
  ⟨by decide, C10_execute_high [⟨10, 0, Act.ret⟩, ⟨150, 1, Act.ret⟩, ⟨100, 2, Act.ret⟩] (by decide)⟩

instance {ε α : Type} [DecidableEq ε] [DecidableEq α] : DecidableEq (Except ε α) := fun x y =>
  match x, y with
  | Except.ok a, Except.ok b => decidable_of_iff (a = b) (by simp)
  | Except.error a, Except.error b => decidable_of_iff (a = b) (by simp)
  | Except.ok _, Except.error _ => isFalse (by simp)
  | Except.error _, Except.ok _ => isFalse (by simp)

/-- A registered provider of a method: its identity (pid) and what running it
produces, either a value or the diagnostic text of the exception it throws
(boost::current_exception_diagnostic_information, never empty in the
source). -/
structure Provider (α : Type) where
  pid : Nat
  out : Except String α
deriving DecidableEq

/-- Whether an Except value is the error case. -/
def is_err {α : Type} : Except String α → Bool
  | Except.error _ => true
  | Except.ok _ => false

/-- The diagnostic text a raising provider contributes ("" for a provider
that succeeds; only used for raising providers). -/
def diag_of {α : Type} (p : Provider α) : String :=
  match p.out with
  | Except.error d => d
  | Except.ok _ => ""

/-- first_success_policy::operator()(first, last): iterate over the
providers, running each by dereferencing; return the first result produced
without an exception; on an exception append its diagnostic to err (preceded
by the delimiter if err is already non-empty) and try the next; when the
range is exhausted throw a length_error carrying the aggregate message.
The model additionally returns the list of providers actually run. -/
def first_success_policy {α : Type} (err : String) :
    List (Provider α) → List Nat × Except String α
  | [] => ([], Except.error ("No Result Available, All providers returned exceptions[" ++ err ++ "]"))
  | p :: rest =>
    match p.out with
    | Except.ok v => ([p.pid], Except.ok v)
    | Except.error d =>
      let err2 := if err = "" then d else err ++ "\",\"" ++ d
      let pr := first_success_policy err2 rest
      (p.pid :: pr.1, pr.2)

/-- Accumulated err string after the policy's loop has consumed the given
(raising) providers, starting from err; mirrors the catch branch. -/
def acc_err {α : Type} (err : String) (ps : List (Provider α)) : String :=
  ps.foldl (fun e p => if e = "" then diag_of p else e ++ "\",\"" ++ diag_of p) err

/-- Helper for the spec-side join: delimiter-prefixed concatenation. -/
def delim_tail : List String → String
  | [] => ""
  | d :: rest => "\",\"" ++ d ++ delim_tail rest

/-- Modelled from the spec: the concatenation of every per-provider
diagnostic in visitation order, separated by the delimiter; compared against
the accumulated error message the source builds. -/
def spec_delim_join : List String → String
  | [] => ""
  | d :: rest => d ++ delim_tail rest

/-- boost::signals2 slot insertion as used by signal::connect(group, slot):
the new slot goes behind every slot whose group value is at most its own,
in front of the first strictly greater group. -/
def insert_group {α : Type} (e : Int × Provider α) :
    List (Int × Provider α) → List (Int × Provider α)
  | [] => [e]
  | f :: rest => if f.1 ≤ e.1 then f :: insert_group e rest else e :: f :: rest

/-- method::register_provider(provider, priority): connect into the signal's
ordered slot list (lower priority value called before higher). -/
def register_provider {α : Type} (entries : List (Int × Provider α)) (priority : Int)
    (p : Provider α) : List (Int × Provider α) :=
  insert_group (priority, p) entries

/-- A sequence of register_provider calls starting from the empty method. -/
def register_all {α : Type} (rs : List (Int × Provider α)) : List (Int × Provider α) :=
  rs.foldl (fun acc r => register_provider acc r.1 r.2) []

/-- method::operator(): invoke the signal, which runs the ordered slot list
under the dispatch policy with a fresh combiner (err starts empty). -/
def method_invoke {α : Type} (entries : List (Int × Provider α)) :
    List Nat × Except String α :=
  first_success_policy "" (entries.map Prod.snd)

theorem insert_group_mem {α : Type} {e b : Int × Provider α} :
    ∀ {l : List (Int × Provider α)}, b ∈ insert_group e l → b = e ∨ b ∈ l := by
  intro l
  induction l with
  | nil =>
    intro h
    simp [insert_group] at h
    exact Or.inl h
  | cons f rest ih =>
    intro h
    simp only [insert_group] at h
    by_cases hc : f.1 ≤ e.1
    · rw [if_pos hc] at h
      rcases List.mem_cons.mp h with h2 | h2
      · exact Or.inr (by simp [h2])
      · rcases ih h2 with h3 | h3
        · exact Or.inl h3
        · exact Or.inr (List.mem_cons_of_mem f h3)
    · rw [if_neg hc] at h
      rcases List.mem_cons.mp h with h2 | h2
      · exact Or.inl h2
      · exact Or.inr h2

theorem insert_group_pairwise {α : Type} {e : Int × Provider α} :
    ∀ {l : List (Int × Provider α)}, l.Pairwise (fun a b => a.1 ≤ b.1) →
      (insert_group e l).Pairwise (fun a b => a.1 ≤ b.1) := by
  intro l
  induction l with
  | nil =>
    intro _
    simp [insert_group]
  | cons f rest ih =>
    intro h
    rcases List.pairwise_cons.mp h with ⟨hf, hrest⟩
    simp only [insert_group]
    by_cases hc : f.1 ≤ e.1
    · rw [if_pos hc]
      refine List.pairwise_cons.mpr ⟨?_, ih hrest⟩
      intro b hb
      rcases insert_group_mem hb with h2 | h2
      · rw [h2]; exact hc
      · exact hf b h2
    · rw [if_neg hc]
      refine List.pairwise_cons.mpr ⟨?_, h⟩
      intro b hb
      rcases List.mem_cons.mp hb with h2 | h2
      · rw [h2]; exact le_of_lt (not_le.mp hc)
      · exact le_trans (le_of_lt (not_le.mp hc)) (hf b h2)

theorem register_all_pairwise {α : Type} (rs : List (Int × Provider α)) :
    (register_all rs).Pairwise (fun a b => a.1 ≤ b.1) := by
  have hgen : ∀ (l : List (Int × Provider α)) (acc : List (Int × Provider α)),
      acc.Pairwise (fun a b => a.1 ≤ b.1) →
      (l.foldl (fun acc r => register_provider acc r.1 r.2) acc).Pairwise
        (fun a b => a.1 ≤ b.1) := by
    intro l
    induction l with
    | nil =>
      intro acc h
      simpa using h
    | cons r l ih =>
      intro acc h
      exact ih _ (insert_group_pairwise h)
  simpa [register_all] using hgen rs [] (by simp)

theorem fsp_first_ok {α : Type} :
    ∀ (ps₁ : List (Provider α)) (p : Provider α) (ps₂ : List (Provider α)) (v : α)
      (err : String), (∀ x ∈ ps₁, is_err x.out = true) → p.out = Except.ok v →
      first_success_policy err (ps₁ ++ p :: ps₂) =
        (ps₁.map Provider.pid ++ [p.pid], Except.ok v) := by
  intro ps₁
  induction ps₁ with
  | nil =>
    intro p ps₂ v err _ hp
    simp only [List.nil_append, first_success_policy, hp]
    simp
  | cons x xs ih =>
    intro p ps₂ v err hx hp
    have hxe : is_err x.out = true := hx x (List.mem_cons_self _ _)
    cases hout : x.out with
    | ok w =>
      rw [hout] at hxe
      simp [is_err] at hxe
    | error d =>
      simp only [List.cons_append, first_success_policy, hout, List.append_eq]
      rw [ih p ps₂ v _ (fun y hy => hx y (List.mem_cons_of_mem x hy)) hp]
      simp

theorem fsp_err_iff {α : Type} : ∀ (ps : List (Provider α)) (err : String),
    is_err (first_success_policy err ps).2 = true ↔ ∀ p ∈ ps, is_err p.out = true := by
  intro ps
  induction ps with
  | nil =>
    intro err
    simp [first_success_policy, is_err]
  | cons p rest ih =>
    intro err
    cases hout : p.out with
    | ok v =>
      simp only [first_success_policy, hout]
      constructor
      · intro h
        simp [is_err] at h
      · intro h
        have h2 := h p (List.mem_cons_self _ _)
        rw [hout] at h2
        simp [is_err] at h2
    | error d =>
      simp only [first_success_policy, hout]
      constructor
      · intro h x hx
        rcases List.mem_cons.mp hx with h2 | h2
        · rw [h2, hout]; rfl
        · exact ((ih _).mp (by simpa using h)) x h2
      · intro h
        simpa using (ih _).mpr (fun x hx => h x (List.mem_cons_of_mem p hx))

theorem fsp_all_err {α : Type} : ∀ (ps : List (Provider α)) (err : String),
    (∀ p ∈ ps, is_err p.out = true) →
    first_success_policy err ps = (ps.map Provider.pid,
      Except.error ("No Result Available, All providers returned exceptions[" ++
        acc_err err ps ++ "]")) := by
  intro ps
  induction ps with
  | nil =>
    intro err _
    simp [first_success_policy, acc_err]
  | cons p rest ih =>
    intro err h
    have hpe := h p (List.mem_cons_self _ _)
    cases hout : p.out with
    | ok v =>
      rw [hout] at hpe
      simp [is_err] at hpe
    | error d =>
      simp only [first_success_policy, hout]
      rw [ih _ (fun x hx => h x (List.mem_cons_of_mem p hx))]
      have hacc : acc_err err (p :: rest) =
          acc_err (if err = "" then d else err ++ "\",\"" ++ d) rest := by
        simp [acc_err, diag_of, hout]
      rw [hacc]
      simp

theorem append_ne_empty_left {a : String} (b : String) (h : a ≠ "") : a ++ b ≠ "" := by
  intro hab
  apply h
  have hd := congrArg String.data hab
  simp only [String.data_append] at hd
  apply String.ext
  have : a.data = [] := (List.append_eq_nil.mp (by simpa using hd)).1
  simpa using this

theorem acc_err_ne {α : Type} : ∀ (ps : List (Provider α)) (err : String), err ≠ "" →
    acc_err err ps = err ++ delim_tail (ps.map diag_of) := by
  intro ps
  induction ps with
  | nil =>
    intro err _
    simp [acc_err, delim_tail]
  | cons p rest ih =>
    intro err h
    have hstep : acc_err err (p :: rest) = acc_err (err ++ "\",\"" ++ diag_of p) rest := by
      simp [acc_err, h]
    rw [hstep, ih _ (append_ne_empty_left _ (append_ne_empty_left _ h))]
    simp [delim_tail, String.append_assoc]

theorem acc_err_empty {α : Type} : ∀ (ps : List (Provider α)),
    (∀ p ∈ ps, diag_of p ≠ "") → acc_err "" ps = spec_delim_join (ps.map diag_of) := by
  intro ps h
  cases ps with
  | nil => rfl
  | cons p rest =>
    have hstep : acc_err "" (p :: rest) = acc_err (diag_of p) rest := by
      simp [acc_err]
    rw [hstep, acc_err_ne rest (diag_of p) (h p (List.mem_cons_self _ _))]
    simp [spec_delim_join]

/-- Claim C4: under the first-success policy, invocation visits providers in
registration-priority order (register_provider keeps the slot list sorted by
ascending priority value, equal priorities behind earlier ones); the first
provider that completes without raising supplies the result, providers after
it are not run (they do not appear in the run list), and diagnostics from
earlier raising providers are not surfaced (the result is exactly the
succeeding provider's value); in the concrete example with P1 raising
registered before P2 returning "ok", invoke returns "ok". -/
theorem C4_first_success :
    (∀ (α : Type) (rs : List (Int × Provider α)),
      ((register_all rs).map Prod.fst).Sorted (fun a b => a ≤ b)) ∧
    (∀ (α : Type) (es₁ : List (Int × Provider α)) (pr : Int) (p : Provider α)
        (es₂ : List (Int × Provider α)) (v : α),
      (∀ e ∈ es₁, is_err e.2.out = true) → p.out = Except.ok v →
      method_invoke (es₁ ++ (pr, p) :: es₂) =
        ((es₁.map Prod.snd).map Provider.pid ++ [p.pid], Except.ok v)) ∧
    method_invoke (register_all [((0 : Int), ⟨1, Except.error "P1 failed"⟩),
      ((1 : Int), (⟨2, Except.ok "ok"⟩ : Provider String))]) = ([1, 2], Except.ok "ok") := by
  refine ⟨?_, ?_, by rfl⟩
  · intro α rs
    rw [List.Sorted, List.pairwise_map]
    exact register_all_pairwise rs
  · intro α es₁ pr p es₂ v h1 h2
    have hm : ∀ x ∈ es₁.map Prod.snd, is_err x.out = true := by
      intro x hx
      simp only [List.mem_map] at hx
      obtain ⟨e, he, hex⟩ := hx
      rw [← hex]
      exact h1 e he
    have heq := fsp_first_ok (es₁.map Prod.snd) p (es₂.map Prod.snd) v "" hm h2
    simp only [method_invoke, List.map_append, List.map_cons]
    exact heq

/-- Witness for C4: one raising provider registered before one succeeding
provider; invoke runs both in order and returns the succeeding value. -/
theorem C4_first_success_witness :
    (∀ e ∈ [((0 : Int), (⟨1, Except.error "boom"⟩ : Provider Nat))], is_err e.2.out = true) ∧
    ((⟨2, Except.ok 5⟩ : Provider Nat).out = Except.ok 5) ∧
    method_invoke ([((0 : Int), (⟨1, Except.error "boom"⟩ : Provider Nat))] ++
        ((1 : Int), (⟨2, Except.ok 5⟩ : Provider Nat)) :: []) =
      (([((0 : Int), (⟨1, Except.error "boom"⟩ : Provider Nat))].map Prod.snd).map Provider.pid ++
        [(⟨2, Except.ok 5⟩ : Provider Nat).pid], Except.ok 5) :=
  ⟨by decide, rfl,
    C4_first_success.2.1 Nat [((0 : Int), ⟨1, Except.error "boom"⟩)] 1 ⟨2, Except.ok 5⟩ [] 5
      (by decide) rfl⟩

/-- Claim C5: under the first-success policy, invocation fails iff every
provider raises; invoking with zero registered providers raises the same
aggregate-failure error with an empty diagnostic list; and when every
provider raises, the aggregate error carries the concatenation of every
per-provider diagnostic in visitation order separated by the delimiter
(the source diagnostics are never empty, reflected as a hypothesis). -/
theorem C5_aggregate_error :
    (∀ (α : Type) (es : List (Int × Provider α)),
      is_err (method_invoke es).2 = true ↔ ∀ e ∈ es, is_err e.2.out = true) ∧
    (∀ (α : Type), method_invoke ([] : List (Int × Provider α)) =
      ([], Except.error "No Result Available, All providers returned exceptions[]")) ∧
    (∀ (α : Type) (es : List (Int × Provider α)),
      (∀ e ∈ es, is_err e.2.out = true ∧ diag_of e.2 ≠ "") →
      method_invoke es = ((es.map Prod.snd).map Provider.pid,
        Except.error ("No Result Available, All providers returned exceptions[" ++
          spec_delim_join ((es.map Prod.snd).map diag_of) ++ "]"))) := by
  refine ⟨?_, ?_, ?_⟩
  · intro α es
    rw [method_invoke, fsp_err_iff]
    constructor
    · intro h e he
      exact h e.2 (List.mem_map_of_mem Prod.snd he)
    · intro h x hx
      simp only [List.mem_map] at hx
      obtain ⟨e, he, hex⟩ := hx
      rw [← hex]
      exact h e he
  · intro α
    rfl
  · intro α es h
    have h1 : ∀ x ∈ es.map Prod.snd, is_err x.out = true := by
      intro x hx
      simp only [List.mem_map] at hx
      obtain ⟨e, he, hex⟩ := hx
      rw [← hex]
      exact (h e he).1
    have h2 : ∀ x ∈ es.map Prod.snd, diag_of x ≠ "" := by
      intro x hx
      simp only [List.mem_map] at hx
      obtain ⟨e, he, hex⟩ := hx
      rw [← hex]
      exact (h e he).2
    rw [method_invoke, fsp_all_err _ _ h1, acc_err_empty _ h2]

/-- Witness for C5: two raising providers; invoke fails with both
diagnostics joined by the delimiter. -/
theorem C5_aggregate_error_witness :
    (∀ e ∈ [((0 : Int), (⟨1, Except.error "ea"⟩ : Provider Nat)),
        ((0 : Int), (⟨2, Except.error "eb"⟩ : Provider Nat))],
      is_err e.2.out = true ∧ diag_of e.2 ≠ "") ∧
    method_invoke [((0 : Int), (⟨1, Except.error "ea"⟩ : Provider Nat)),
        ((0 : Int), (⟨2, Except.error "eb"⟩ : Provider Nat))] =
      (([((0 : Int), (⟨1, Except.error "ea"⟩ : Provider Nat)),
          ((0 : Int), (⟨2, Except.error "eb"⟩ : Provider Nat))].map Prod.snd).map Provider.pid,
        Except.error ("No Result Available, All providers returned exceptions[" ++
          spec_delim_join (([((0 : Int), (⟨1, Except.error "ea"⟩ : Provider Nat)),
            ((0 : Int), (⟨2, Except.error "eb"⟩ : Provider Nat))].map Prod.snd).map diag_of) ++
          "]")) :=
  ⟨by decide,
    C5_aggregate_error.2.2 Nat [((0 : Int), ⟨1, Except.error "ea"⟩),
      ((0 : Int), ⟨2, Except.error "eb"⟩)] (by decide)⟩

/-- A channel subscriber: its identity and whether its callback throws on
every invocation. -/
structure Subscriber where
  sid : Nat
  raises : Bool
deriving DecidableEq

/-- Observable state of a channel together with its dispatcher: the signal's
slot list, the fan-out tasks posted to the io_service and not yet run (each
holding its own copy of the payload), how many payload copies have been
made, and the ordered record of subscriber invocations. -/
structure Chan (δ : Type) where
  subs : List Subscriber
  pending : List δ
  copies : Nat
  delivered : List Nat
deriving DecidableEq

/-- signal::num_slots on the model. -/
def num_slots {δ : Type} (c : Chan δ) : Nat := c.subs.length

/-- channel::has_subscribers: num_slots() > 0. -/
def has_subscribers {δ : Type} (c : Chan δ) : Bool := decide (num_slots c > 0)

/-- channel::publish(data): if (has_subscribers()) copy data into a lambda
and ios_ptr->post it; otherwise do nothing at all (no copy, no post, no
subscriber invocation). -/
def publish {δ : Type} (data : δ) (c : Chan δ) : Chan δ :=
  if has_subscribers c then
    { c with
        pending := c.pending ++ [data]
        copies := c.copies + 1 }
  else c

/-- Invoking one subscriber slot: ok, or the exception it throws. -/
def run_subscriber (s : Subscriber) : Except String Unit :=
  if s.raises then Except.error "subscriber exception" else Except.ok ()

/-- drop_exceptions::operator()(first, last): dereference (invoke) every
slot in order inside try/catch, dropping any exception and continuing.
Returns the invoked subscribers in order together with the exception
propagated to the caller (always none: the catch swallows everything, which
is what both match branches continuing identically encodes). -/
def drop_exceptions : List Subscriber → List Nat × Option String
  | [] => ([], none)
  | s :: rest =>
    let step := run_subscriber s
    let tail := drop_exceptions rest
    match step with
    | Except.ok _ => (s.sid :: tail.1, tail.2)
    | Except.error _ => (s.sid :: tail.1, tail.2)

/-- Running the oldest posted fan-out task: the lambda calls (*this)(data),
invoking the signal over the current slot list under drop_exceptions. -/
def deliver {δ : Type} (c : Chan δ) : Chan δ :=
  match c.pending with
  | [] => c
  | _ :: rest =>
    { c with pending := rest, delivered := c.delivered ++ (drop_exceptions c.subs).1 }

/-- Claim C6: publishing on a channel with zero subscribers is a complete
no-op (nothing is posted to the dispatcher, the payload is not copied, no
subscriber is invoked); with at least one subscriber publish copies the
payload exactly once into a task posted to the dispatcher, and publish
itself invokes no subscriber (subs and delivered are untouched). -/
theorem C6_publish_no_subscribers :
    (∀ (δ : Type) (data : δ) (c : Chan δ), c.subs = [] → publish data c = c) ∧
    (∀ (δ : Type) (data : δ) (c : Chan δ), c.subs ≠ [] →
      publish data c = { c with
        pending := c.pending ++ [data]
        copies := c.copies + 1 }) := by
  constructor
  · intro δ data c h
    simp [publish, has_subscribers, num_slots, h]
  · intro δ data c h
    have hlen : 0 < c.subs.length := List.length_pos.mpr h
    simp [publish, has_subscribers, num_slots, hlen]

/-- Witness for C6 on a concrete empty-subscriber channel. -/
theorem C6_publish_no_subscribers_witness :
    (Chan.subs (⟨[], [], 0, []⟩ : Chan Nat) = []) ∧
    publish 3 (⟨[], [], 0, []⟩ : Chan Nat) = (⟨[], [], 0, []⟩ : Chan Nat) :=
  ⟨rfl, C6_publish_no_subscribers.1 Nat 3 ⟨[], [], 0, []⟩ rfl⟩

/-- Claim C7: the drop-exceptions fan-out invokes every one of the N
subscribers exactly once, in order, even when some of them raise; any raised
error is discarded, does not affect sibling subscribers, and is never
propagated to the caller; consequently a publish followed by the scheduled
fan-out delivers to all current subscribers exactly once with the publisher
observing no error. -/
theorem C7_drop_exceptions :
    (∀ subs : List Subscriber, drop_exceptions subs = (subs.map Subscriber.sid, none)) ∧
    (∀ (δ : Type) (data : δ) (c : Chan δ), c.pending = [] → c.subs ≠ [] →
      deliver (publish data c) =
        { c with
            pending := []
            copies := c.copies + 1
            delivered := c.delivered ++ c.subs.map Subscriber.sid }) := by
  have hde : ∀ subs : List Subscriber, drop_exceptions subs = (subs.map Subscriber.sid, none) := by
    intro subs
    induction subs with
    | nil => rfl
    | cons s rest ih =>
      simp only [drop_exceptions, ih]
      cases hr : run_subscriber s <;> simp
  refine ⟨hde, ?_⟩
  intro δ data c hpend hsubs
  have hlen : 0 < c.subs.length := List.length_pos.mpr hsubs
  have hpub : publish data c =
      { c with
          pending := c.pending ++ [data]
          copies := c.copies + 1 } := by
    simp [publish, has_subscribers, num_slots, hlen]
  rw [hpub, hpend]
  simp [deliver, hde]

/-- Witness for C7 on a channel with one raising and one normal
subscriber. -/
theorem C7_drop_exceptions_witness :
    (Chan.pending (⟨[⟨1, true⟩, ⟨2, false⟩], [], 0, []⟩ : Chan Nat) = []) ∧
    (Chan.subs (⟨[⟨1, true⟩, ⟨2, false⟩], [], 0, []⟩ : Chan Nat) ≠ []) ∧
    deliver (publish 9 (⟨[⟨1, true⟩, ⟨2, false⟩], [], 0, []⟩ : Chan Nat)) =
      { (⟨[⟨1, true⟩, ⟨2, false⟩], [], 0, []⟩ : Chan Nat) with
          pending := []
          copies := Chan.copies (⟨[⟨1, true⟩, ⟨2, false⟩], [], 0, []⟩ : Chan Nat) + 1
          delivered := Chan.delivered (⟨[⟨1, true⟩, ⟨2, false⟩], [], 0, []⟩ : Chan Nat) ++
            (Chan.subs (⟨[⟨1, true⟩, ⟨2, false⟩], [], 0, []⟩ : Chan Nat)).map Subscriber.sid } :=
  ⟨rfl, by decide,
    C7_drop_exceptions.2 Nat 9 ⟨[⟨1, true⟩, ⟨2, false⟩], [], 0, []⟩ rfl (by decide)⟩

/-- boost::signals2::connection as the source uses it: a token referencing a
slot by id (none is the default-constructed or moved-from empty connection).
Modelled from the library behaviour the source relies on: connected() tests
whether the referenced slot is still in the signal's live slot list (here a
List Nat of slot ids), disconnect() removes it and is a no-op when already
gone, and destroying a plain connection does not disconnect anything. -/
structure connection where
  slot : Option Nat
deriving DecidableEq

/-- connection::connected(). -/
def connected (conn : connection) (reg : List Nat) : Bool :=
  match conn.slot with
  | some i => decide (i ∈ reg)
  | none => false

/-- connection::disconnect(): remove the referenced slot if present. -/
def disconnect (conn : connection) (reg : List Nat) : List Nat :=
  match conn.slot with
  | some i => reg.erase i
  | none => reg

/-- Destroying a raw boost::signals2::connection (the channel's handle_type):
no effect on the slot list; a plain connection is not RAII. -/
def connection_drop (_conn : connection) (reg : List Nat) : List Nat := reg

/-- method::handle: wraps a connection in the member _handle. -/
structure handle where
  _handle : connection
deriving DecidableEq

/-- method::handle::unregister():
if (_handle.connected()) _handle.disconnect(). -/
def handle.unregister (h : handle) (reg : List Nat) : List Nat :=
  if connected h._handle reg then disconnect h._handle reg else reg

/-- method::handle destructor: calls unregister(). -/
def handle.drop (h : handle) (reg : List Nat) : List Nat := h.unregister reg

/-- Moving a method::handle (defaulted move constructor / assignment moves
the wrapped connection): the destination takes over the connection and the
source is left holding the empty connection. Returns (source after move,
destination). -/
def handle.move (h : handle) : handle × handle :=
  ({ _handle := { slot := none } }, { _handle := h._handle })

/-- method::register_provider: connect a new slot (appended to the live slot
list) and wrap the resulting connection in an RAII handle. -/
def register_provider_conn (i : Nat) (reg : List Nat) : List Nat × handle :=
  (reg ++ [i], { _handle := { slot := some i } })

/-- channel::subscribe: connect a new slot and return the raw connection
itself (handle_type is boost::signals2::connection, not the RAII wrapper). -/
def channel_subscribe (i : Nat) (reg : List Nat) : List Nat × connection :=
  (reg ++ [i], { slot := some i })

/-- channel::unsubscribe(handle): handle.disconnect() unconditionally. -/
def unsubscribe (conn : connection) (reg : List Nat) : List Nat :=
  disconnect conn reg

/-- Claim C8 counterexample: channel::subscribe returns a plain
boost::signals2::connection, not an RAII handle. After subscribing slot 7 to
an empty channel and then destroying the returned token, the subscription is
still connected — contradicting the claim that for both registries the
returned handle's destruction disconnects a still-connected entry (the raw
connection is also copyable, not move-only). -/
theorem C8_counterexample :
    connected (channel_subscribe 7 []).2
      (connection_drop (channel_subscribe 7 []).2 (channel_subscribe 7 []).1) = true := by
  decide

/-- Claim C8 amended: method::register_provider returns an RAII move-only
handle whose connection references the new entry: destruction disconnects a
still-connected entry, unregistering twice (or unregistering and then
dropping) is a no-op that affects no other entry, and moving transfers the
connection leaving the source permanently disconnected with no double
release. channel::subscribe instead returns the raw connection: destroying
it does not disconnect, while explicit unsubscription disconnects, is
idempotent, and affects no other entries. -/
theorem C8_subscription_handles :
    (∀ (h : handle) (reg : List Nat), reg.Nodup →
      connected h._handle (handle.drop h reg) = false ∧
      handle.unregister h (handle.unregister h reg) = handle.unregister h reg ∧
      handle.drop h (handle.unregister h reg) = handle.unregister h reg ∧
      (∀ j : Nat, h._handle.slot ≠ some j →
        (j ∈ handle.unregister h reg ↔ j ∈ reg))) ∧
    (∀ (i : Nat) (reg : List Nat),
      connected (register_provider_conn i reg).2._handle (register_provider_conn i reg).1 = true) ∧
    (∀ (h : handle) (reg : List Nat),
      (handle.move h).2._handle = h._handle ∧
      connected (handle.move h).1._handle reg = false ∧
      handle.drop (handle.move h).1 reg = reg) ∧
    (∀ (i : Nat) (reg : List Nat),
      connection_drop (channel_subscribe i reg).2 (channel_subscribe i reg).1 =
        (channel_subscribe i reg).1) ∧
    (∀ (conn : connection) (reg : List Nat), reg.Nodup →
      unsubscribe conn (unsubscribe conn reg) = unsubscribe conn reg) ∧
    (∀ (conn : connection) (reg : List Nat) (j : Nat), conn.slot ≠ some j →
      (j ∈ unsubscribe conn reg ↔ j ∈ reg)) := by
  refine ⟨?_, ?_, ?_, ?_, ?_, ?_⟩
  · intro h reg hnd
    cases hs : h._handle.slot with
    | none =>
      have hc : ∀ r : List Nat, connected h._handle r = false := by
        intro r
        simp [connected, hs]
      have hu : ∀ r : List Nat, handle.unregister h r = r := by
        intro r
        simp [handle.unregister, hc]
      refine ⟨by simp [handle.drop, hu, hc], by simp [hu], by simp [handle.drop, hu], ?_⟩
      intro j _
      simp [hu]
    | some i =>
      by_cases hmem : i ∈ reg
      · have hc : connected h._handle reg = true := by
          simp [connected, hs, hmem]
        have hu : handle.unregister h reg = reg.erase i := by
          simp [handle.unregister, hc, disconnect, hs]
        have hni : i ∉ reg.erase i := hnd.not_mem_erase
        have hc2 : connected h._handle (reg.erase i) = false := by
          simp [connected, hs, hni]
        have hu2 : handle.unregister h (reg.erase i) = reg.erase i := by
          simp [handle.unregister, hc2]
        refine ⟨?_, ?_, ?_, ?_⟩
        · simp [handle.drop, hu, hc2]
        · simp [hu, hu2]
        · simp [handle.drop, hu, hu2]
        · intro j hj
          have hij : j ≠ i := by
            intro hcon
            exact hj (by rw [hcon])
          rw [hu]
          exact List.mem_erase_of_ne hij
      · have hc : connected h._handle reg = false := by
          simp [connected, hs, hmem]
        have hu : handle.unregister h reg = reg := by
          simp [handle.unregister, hc]
        refine ⟨by simp [handle.drop, hu, hc], by simp [hu], by simp [handle.drop, hu], ?_⟩
        intro j _
        simp [hu]
  · intro i reg
    simp [register_provider_conn, connected]
  · intro h reg
    refine ⟨rfl, rfl, ?_⟩
    simp [handle.move, handle.drop, handle.unregister, connected]
  · intro i reg
    rfl
  · intro conn reg hnd
    cases hs : conn.slot with
    | none => simp [unsubscribe, disconnect, hs]
    | some i =>
      simp only [unsubscribe, disconnect, hs]
      exact List.erase_of_not_mem hnd.not_mem_erase
  · intro conn reg j hj
    cases hs : conn.slot with
    | none => simp [unsubscribe, disconnect, hs]
    | some i =>
      have hij : j ≠ i := by
        intro hcon
        exact hj (by rw [hcon, hs])
      simp only [unsubscribe, disconnect, hs]
      exact List.mem_erase_of_ne hij

/-- Witness for C8 on a concrete registry with two live entries. -/
theorem C8_subscription_handles_witness :
    ([3, 4] : List Nat).Nodup ∧
    (connected (handle.mk ⟨some 3⟩)._handle (handle.drop (handle.mk ⟨some 3⟩) [3, 4]) = false ∧
      handle.unregister (handle.mk ⟨some 3⟩) (handle.unregister (handle.mk ⟨some 3⟩) [3, 4]) =
        handle.unregister (handle.mk ⟨some 3⟩) [3, 4] ∧
      handle.drop (handle.mk ⟨some 3⟩) (handle.unregister (handle.mk ⟨some 3⟩) [3, 4]) =
        handle.unregister (handle.mk ⟨some 3⟩) [3, 4] ∧
      (∀ j : Nat, (handle.mk ⟨some 3⟩)._handle.slot ≠ some j →
        (j ∈ handle.unregister (handle.mk ⟨some 3⟩) [3, 4] ↔ j ∈ [3, 4]))) :=
  ⟨by decide, C8_subscription_handles.1 (handle.mk ⟨some 3⟩) [3, 4] (by decide)⟩

end appbase
